import Mathlib

/-!
Verification of the pympipool task-dispatch machinery.

Shallow embedding of:
  * `pympipool/share/serial.py` — `command_line_options`, `execute_tasks`
    (the per-slot dispatcher loop) and `cancel_items_in_queue`;
  * `pympipool/__init__.py` — the validation logic of `Executor.__new__`.

Python `concurrent.futures.Future` objects are modelled by their documented
state machine (PENDING / RUNNING / CANCELLED / CANCELLED_AND_NOTIFIED /
FINISHED) and the methods the dispatcher code calls on them.  The thread-safe
queue is modelled by the list of items it will deliver, in delivery order.
The `SocketInterface` collaborator (`pympipool/share/communication.py`, not
part of the sources) is modelled at its interface boundary: a blocking
request/response call, a fire-and-forget send, and a shutdown, recorded as
events in a trace; the worker's reply to the blocking call is an oracle
function.
-/

namespace Pympipool

/-- State of a `concurrent.futures.Future`, as in CPython's
`concurrent/futures/_base.py`.  Result values are abstracted as `Nat`. -/
inductive FutState where
  | pending
  | running
  | cancelled
  | cancelledNotified
  | finished (v : Nat)
deriving DecidableEq, Repr

/-- Model of `Future.set_running_or_notify_cancel`: on CANCELLED move to
CANCELLED_AND_NOTIFIED and return `false`; on PENDING move to RUNNING and
return `true`; any other state raises `InvalidStateError` (`none`). -/
def set_running_or_notify_cancel : FutState → Option (Bool × FutState)
  | .pending => some (true, .running)
  | .cancelled => some (false, .cancelledNotified)
  | _ => none

/-- Model of `Future.cancel`: a PENDING future becomes CANCELLED (returns `true`);
an already-cancelled future stays cancelled (returns `true`); a RUNNING or
FINISHED future is unchanged and the call returns `false`. -/
def futureCancel : FutState → Bool × FutState
  | .pending => (true, .cancelled)
  | .cancelled => (true, .cancelled)
  | .cancelledNotified => (true, .cancelledNotified)
  | .running => (false, .running)
  | .finished v => (false, .finished v)

/-- Model of `Future.set_result`: legal from PENDING or RUNNING, otherwise
`InvalidStateError` (`none`). -/
def set_result (v : Nat) : FutState → Option FutState
  | .pending => some (.finished v)
  | .running => some (.finished v)
  | _ => none

/-- A Python dict as used on the dispatcher queue: the keys the code tests
for are `"c"` (control string), `"f"` (callable), `"a"`/`"k"`
(args/kwargs payloads), `"l"` (the paired local future, identified by id),
and `"i"` (id list for polling).  Absent key = `none`.  Payloads other than
`"c"` and `"l"` are opaque to the dispatcher and abstracted as `Nat`. -/
structure TaskDict where
  c : Option String
  f : Option Nat
  a : Option Nat
  k : Option Nat
  l : Option Nat
  i : Option Nat
deriving DecidableEq, Repr

/-- The future store: future id ↦ future state. -/
def FutStore : Type := Nat → FutState

/-- Point update of the future store. -/
def updateStore (fs : FutStore) (fid : Nat) (st : FutState) : FutStore :=
  fun n => if n = fid then st else fs n

/-- Observable interactions of the dispatcher loop with the socket
interface and the futures, in order. -/
inductive Event where
  | callSent (payload : TaskDict)
  | resultRecorded (fid : Nat) (v : Nat)
  | sendFF (payload : TaskDict)
  | shutdownEv (wait : Bool)
deriving DecidableEq, Repr

/-- The close test `"c" in task_dict.keys() and task_dict["c"] == "close"`. -/
def isClose (d : TaskDict) : Bool := d.c = some "close"

/-- The effect of `task_dict.pop("l")`: the dict that is actually handed to
`send_and_receive_dict`, with the local future removed. -/
def popL (d : TaskDict) : TaskDict :=
  { c := d.c, f := d.f, a := d.a, k := d.k, l := none, i := d.i }

/-- Result of handling one dequeued item. -/
inductive StepOut where
  | next (fs : FutStore) (evs : List Event)
  | halt (fs : FutStore) (evs : List Event)
  | err (fs : FutStore) (evs : List Event)

/-- One iteration of the `while True` body of `execute_tasks`
(`pympipool/share/serial.py`): close check first, then the task branch
(`"f" in keys and "l" in keys`), then the poll branch
(`"f" in keys and "i" in keys`); a dict matching none of the three
patterns falls through silently.  `worker` is the oracle giving the value
returned by the blocking `interface.send_and_receive_dict` call. -/
def step (worker : TaskDict → Nat) (fs : FutStore) (d : TaskDict) : StepOut :=
  if isClose d then
    .halt fs [.shutdownEv true]
  else if d.f.isSome ∧ d.l.isSome then
    match d.l with
    | some fid =>
      match set_running_or_notify_cancel (fs fid) with
      | some (true, st1) =>
        let v := worker (popL d)
        match set_result v st1 with
        | some st2 =>
          .next (updateStore fs fid st2)
            [.callSent (popL d), .resultRecorded fid v]
        | none =>
          .err (updateStore fs fid st1) [.callSent (popL d)]
      | some (false, st1) => .next (updateStore fs fid st1) []
      | none => .err fs []
    | none => .next fs []
  else if d.f.isSome ∧ d.i.isSome then
    .next fs [.sendFF d]
  else
    .next fs []

/-- How a run of the dispatcher loop ended: a close message was dequeued
(`break`), the modelled queue ran out of items (in Python the loop would
block on `get()`), or a Python exception escaped the loop. -/
inductive LoopExit where
  | closed
  | drained
  | raised
deriving DecidableEq, Repr

/-- The dispatcher loop of `execute_tasks`, run over the sequence of items
the queue delivers: final store, event trace, and how the loop ended. -/
def execute_tasks (worker : TaskDict → Nat) (fs : FutStore) :
    List TaskDict → FutStore × List Event × LoopExit
  | [] => (fs, [], .drained)
  | d :: rest =>
    match step worker fs d with
    | .halt fs' evs => (fs', evs, .closed)
    | .err fs' evs => (fs', evs, .raised)
    | .next fs' evs =>
      match execute_tasks worker fs' rest with
      | (fs'', evs', e) => (fs'', evs ++ evs', e)

/-- An item sitting on the queue: the `isinstance(item, dict)` test in
`cancel_items_in_queue` distinguishes dicts from anything else. -/
inductive QItem where
  | dict (d : TaskDict)
  | other (n : Nat)
deriving DecidableEq, Repr

/-- Model of `cancel_items_in_queue` (`pympipool/share/serial.py`): `get_nowait`
until `queue.Empty`; for each item that is a dict with an `"l"` key call
`item["l"].cancel()`.  Returns the updated store and the items left on the
queue. -/
def cancel_items_in_queue (fs : FutStore) :
    List QItem → FutStore × List QItem
  | [] => (fs, [])
  | item :: rest =>
    match item with
    | .dict d =>
      match d.l with
      | some fid =>
        cancel_items_in_queue (updateStore fs fid (futureCancel (fs fid)).2) rest
      | none => cancel_items_in_queue fs rest
    | .other _ => cancel_items_in_queue fs rest

/-- Model of `command_line_options` (`pympipool/share/serial.py`): builds the worker
launch command token list. -/
def command_line_options (hostname : String) (port_selected : Nat)
    (path : String) (cores : Nat) (cores_per_task : Nat)
    (oversubscribe : Bool) (enable_flux_backend : Bool)
    (enable_mpi4py_backend : Bool) : List String :=
  let base := if enable_flux_backend then ["flux", "run"] else ["mpiexec"]
  let base := if oversubscribe then base ++ ["--oversubscribe"] else base
  let base :=
    if cores_per_task = 1 ∧ enable_mpi4py_backend then
      base ++ ["-n", Nat.repr cores, "python", "-m", "mpi4py.futures"]
    else if cores_per_task > 1 ∧ enable_mpi4py_backend then
      base ++ ["-n", "1", "python"]
    else
      base ++ ["-n", Nat.repr cores, "python"]
  let base := base ++ [path]
  let base :=
    if enable_flux_backend then base ++ ["--host", hostname] else base
  let base := base ++ ["--zmqport", Nat.repr port_selected]
  if enable_mpi4py_backend then
    base ++ ["--cores-per-task", Nat.repr cores_per_task,
             "--cores-total", Nat.repr cores]
  else
    base

/-- The configuration errors (`ValueError`s) raised by `Executor.__new__`
(`pympipool/__init__.py`). -/
inductive ConfigError where
  | initWithStepMode
  | invalidBackend (backend : String)
  | fluxOversubscribe
  | mpiThreads (threads_per_core : Nat)
  | mpiGpus (gpus_per_worker : Nat)
deriving DecidableEq, Repr

/-- The concrete executor object returned by `Executor.__new__`, with the
constructor arguments the factory passes.  Constructing one of these spawns
worker processes.  The opaque `init_function` callable is abstracted as
`Option Nat`. -/
inductive ExecutorChoice where
  | pyFluxExecutor (max_workers cores_per_worker threads_per_core
      gpus_per_worker : Nat) (init_function : Option Nat)
      (cwd : Option String) (hostname_localhost : Bool)
  | pyFluxStepExecutor (max_cores cores_per_worker threads_per_core
      gpus_per_worker : Nat) (cwd : Option String) (hostname_localhost : Bool)
  | pySlurmExecutor (max_workers cores_per_worker threads_per_core
      gpus_per_worker : Nat) (oversubscribe : Bool)
      (init_function : Option Nat) (cwd : Option String)
      (hostname_localhost : Bool)
  | pySlurmStepExecutor (max_cores cores_per_worker threads_per_core
      gpus_per_worker : Nat) (oversubscribe : Bool) (cwd : Option String)
      (hostname_localhost : Bool)
  | pyMPIExecutor (max_workers cores_per_worker : Nat)
      (init_function : Option Nat) (cwd : Option String)
      (hostname_localhost : Bool)
  | pyMPIStepExecutor (max_cores cores_per_worker : Nat)
      (cwd : Option String) (hostname_localhost : Bool)
deriving DecidableEq, Repr

/-- The backend strings accepted by `Executor.__new__`. -/
def validBackends : List String := ["auto", "mpi", "slurm", "flux"]

/-- Model of `Executor.__new__` (`pympipool/__init__.py`): validation and backend
selection.  `flux_installed` and `slurm_installed` are the module-level
environment probes.  `int(max_cores / cores_per_worker)` is modelled by
natural division. -/
def executorNew (flux_installed slurm_installed : Bool)
    (max_cores cores_per_worker threads_per_core gpus_per_worker : Nat)
    (oversubscribe : Bool) (cwd : Option String) (hostname_localhost : Bool)
    (backend : String) (block_allocation : Bool)
    (init_function : Option Nat) : Except ConfigError ExecutorChoice :=
  if block_allocation = false ∧ init_function ≠ none then
    .error .initWithStepMode
  else if backend ∉ validBackends then
    .error (.invalidBackend backend)
  else if backend = "flux" ∨ (backend = "auto" ∧ flux_installed) then
    if oversubscribe then
      .error .fluxOversubscribe
    else if block_allocation then
      .ok (.pyFluxExecutor (max_cores / cores_per_worker) cores_per_worker
        threads_per_core gpus_per_worker init_function cwd hostname_localhost)
    else
      .ok (.pyFluxStepExecutor max_cores cores_per_worker threads_per_core
        gpus_per_worker cwd hostname_localhost)
  else if backend = "slurm" ∨ (backend = "auto" ∧ slurm_installed) then
    if block_allocation then
      .ok (.pySlurmExecutor (max_cores / cores_per_worker) cores_per_worker
        threads_per_core gpus_per_worker oversubscribe init_function cwd
        hostname_localhost)
    else
      .ok (.pySlurmStepExecutor max_cores cores_per_worker threads_per_core
        gpus_per_worker oversubscribe cwd hostname_localhost)
  else
    if threads_per_core ≠ 1 then
      .error (.mpiThreads threads_per_core)
    else if gpus_per_worker ≠ 0 then
      .error (.mpiGpus gpus_per_worker)
    else if block_allocation then
      .ok (.pyMPIExecutor (max_cores / cores_per_worker) cores_per_worker
        init_function cwd hostname_localhost)
    else
      .ok (.pyMPIStepExecutor max_cores cores_per_worker cwd
        hostname_localhost)

/-- Payloads of the blocking `send_and_receive_dict` calls in a trace,
in order. -/
def callsOf (evs : List Event) : List TaskDict :=
  evs.filterMap fun e =>
    match e with
    | .callSent p => some p
    | _ => none

/-- Every blocking call in the trace is immediately followed by the
recording of its result: no second call ever begins before the previous
call's result is stored. -/
def callsAnswered (evs : List Event) : Prop :=
  ∀ j p, evs.get? j = some (.callSent p) →
    ∃ fid v, evs.get? (j + 1) = some (.resultRecorded fid v)

/-- The payloads of the task items on the queue (dicts carrying an `"l"`
key), in queue order, as they would be sent (`"l"` popped). -/
def queuedTaskPayloads (q : List TaskDict) : List TaskDict :=
  q.filterMap fun d => if d.l.isSome then some (popL d) else none

/-- Does some dict on the queue pair the future `fid` under its `"l"`
key? -/
def referencesFid (q : List QItem) (fid : Nat) : Bool :=
  q.any fun it =>
    match it with
    | .dict d => d.l = some fid
    | .other _ => false

/-- Is the item a dict with an `"l"` key (the only items the cancellation
sweep acts on)? -/
def hasLKey : QItem → Bool
  | .dict d => d.l.isSome
  | .other _ => false

/-- The option tokens whose presence in the launch command the analysis of
`command_line_options` tracks. -/
def flagTokens : List String :=
  ["--oversubscribe", "--host", "--cores-per-task", "--cores-total",
   "--zmqport"]

/-- Predicate `hasAdjacent x y cmd`: the token `x` occurs in `cmd` immediately
followed by the token `y`. -/
def hasAdjacent (x y : String) : List String → Bool
  | a :: b :: rest => (a == x && b == y) || hasAdjacent x y (b :: rest)
  | _ => false

/-- Freshness of `s`: it is not one of the literal option tokens, which holds of every hostname,
path and rendered number the launch pipeline actually produces. -/
def freshToken (s : String) : Prop := ∀ t ∈ flagTokens, t ≠ s

/-! ## Theorems -/

/-- C1: for a dequeued task item (a dict with a callable under `"f"` and a
paired future under `"l"`), the loop atomically marks the future running
only if it has not been cancelled: if the future was already cancelled the
item is dropped with no interface interaction at all (empty event list),
and if it was pending the loop performs exactly one blocking
`send_and_receive` (one `callSent` event) and records the returned value as
the future's result. -/
theorem execute_tasks_task_item_dispatch
    (worker : TaskDict → Nat) (fs : FutStore) (d : TaskDict) (fid : Nat)
    (hnc : isClose d = false) (hf : d.f.isSome = true) (hl : d.l = some fid) :
    (fs fid = .cancelled →
      step worker fs d = .next (updateStore fs fid .cancelledNotified) []) ∧
    (fs fid = .pending →
      set_running_or_notify_cancel (fs fid) = some (true, .running) ∧
      step worker fs d =
        .next (updateStore fs fid (.finished (worker (popL d))))
          [.callSent (popL d), .resultRecorded fid (worker (popL d))]) := by
  constructor
  · intro h
    simp [step, hnc, hl, hf, h, set_running_or_notify_cancel]
  · intro h
    refine ⟨by simp [h, set_running_or_notify_cancel], ?_⟩
    simp [step, hnc, hl, hf, h, set_running_or_notify_cancel, set_result]

/-- Witness for C1 at a concrete pending task item. -/
theorem execute_tasks_task_item_dispatch_witness :
    step (fun _ => 7) (fun _ => FutState.pending)
        (TaskDict.mk none (some 1) (some 2) (some 3) (some 0) none) =
      StepOut.next
        (updateStore (fun _ => FutState.pending) 0 (.finished 7))
        [.callSent (popL (TaskDict.mk none (some 1) (some 2) (some 3)
            (some 0) none)),
         .resultRecorded 0 7] :=
  ((execute_tasks_task_item_dispatch (fun _ => 7) (fun _ => FutState.pending)
    (TaskDict.mk none (some 1) (some 2) (some 3) (some 0) none) 0
    (by decide) (by decide) rfl).2 rfl).2

/-- C9: a dequeued dict that matches none of the three dispatcher patterns
(no `"c"` mapped to `"close"`, not both `"f"` and `"l"`, not both `"f"`
and `"i"`) is silently discarded: no exception, no interface interaction,
no future state change (so an attached pending future stays pending), and
the loop simply continues with the next item. -/
theorem execute_tasks_unmatched_item_ignored
    (worker : TaskDict → Nat) (fs : FutStore) (d : TaskDict)
    (h1 : isClose d = false)
    (h2 : ¬(d.f.isSome = true ∧ d.l.isSome = true))
    (h3 : ¬(d.f.isSome = true ∧ d.i.isSome = true)) :
    step worker fs d = .next fs [] ∧
    ∀ rest, execute_tasks worker fs (d :: rest) =
      execute_tasks worker fs rest := by
  have hstep : step worker fs d = .next fs [] := by
    simp only [step, h1, Bool.false_eq_true, if_false]
    rw [if_neg h2, if_neg h3]
  refine ⟨hstep, fun rest => ?_⟩
  rcases hrec : execute_tasks worker fs rest with ⟨fs2, evs2, e2⟩
  simp [execute_tasks, hstep, hrec]

/-- Witness for C9: a control dict whose `"c"` value is `"stop"` and which
carries `"l"` but no `"f"`. -/
theorem execute_tasks_unmatched_item_ignored_witness :
    step (fun _ => 0) (fun _ => FutState.pending)
        (TaskDict.mk (some "stop") none none none (some 4) none) =
      StepOut.next (fun _ => FutState.pending) [] ∧
    execute_tasks (fun _ => 0) (fun _ => FutState.pending)
        [TaskDict.mk (some "stop") none none none (some 4) none] =
      execute_tasks (fun _ => 0) (fun _ => FutState.pending) [] := by
  have h := execute_tasks_unmatched_item_ignored (fun _ => 0)
    (fun _ => FutState.pending)
    (TaskDict.mk (some "stop") none none none (some 4) none)
    (by decide) (by decide) (by decide)
  exact ⟨h.1, h.2 []⟩

/-- C5 (counterexample): at a concrete update/poll item (`"f"` and `"i"`
keys, no `"l"`), dequeued against a store in which future 0 is pending, the
loop's only interface interaction is the fire-and-forget `sendFF` — it
performs no receive and records no result on any future: the store it
returns is the unchanged `fun _ => pending`.  This contradicts the claim
that the loop distributes the returned results to the matching futures. -/
theorem step_poll_item_counterexample :
    step (fun _ => 42) (fun _ => FutState.pending)
        (TaskDict.mk none (some 5) none none none (some 9)) =
      StepOut.next (fun _ => FutState.pending)
        [Event.sendFF (TaskDict.mk none (some 5) none none none (some 9))] :=
  rfl

/-- C5 (amended): when the dispatcher loop dequeues an update/poll item
(a dict with keys `"f"` and `"i"` and no `"l"`), it forwards the dict to
the worker with the fire-and-forget `send_dict` and continues — it does not
block on a synchronous request/response, and it records no result on any
future itself (the store is returned unchanged). -/
theorem step_poll_item_fire_and_forget
    (worker : TaskDict → Nat) (fs : FutStore) (d : TaskDict)
    (h1 : isClose d = false) (h2 : d.f.isSome = true)
    (h3 : d.l = none) (h4 : d.i.isSome = true) :
    step worker fs d = .next fs [.sendFF d] := by
  simp [step, h1, h2, h3, h4]

/-- Witness for the amended C5 at a concrete poll item. -/
theorem step_poll_item_fire_and_forget_witness :
    step (fun _ => 3) (fun _ => FutState.pending)
        (TaskDict.mk none (some 4) none none none (some 8)) =
      StepOut.next (fun _ => FutState.pending)
        [Event.sendFF (TaskDict.mk none (some 4) none none none (some 8))] :=
  step_poll_item_fire_and_forget _ _ _ (by decide) (by decide) rfl (by decide)

/-- Exhaustive case analysis of one dispatcher iteration: it either emits
nothing, or exactly one blocking call immediately followed by the recording
of its result, or one fire-and-forget send, or the shutdown on close, or
raises with no interface interaction. -/
theorem step_shape (worker : TaskDict → Nat) (fs : FutStore) (d : TaskDict) :
    (∃ fs', step worker fs d = .next fs' []) ∨
    (∃ fs' fid v, step worker fs d =
        .next fs' [.callSent (popL d), .resultRecorded fid v] ∧
        d.l.isSome = true) ∨
    step worker fs d = .next fs [.sendFF d] ∨
    (isClose d = true ∧ step worker fs d = .halt fs [.shutdownEv true]) ∨
    (∃ fs', step worker fs d = .err fs' []) := by
  by_cases hc : isClose d = true
  · exact .inr (.inr (.inr (.inl ⟨hc, by simp [step, hc]⟩)))
  · rw [Bool.not_eq_true] at hc
    by_cases hfl : d.f.isSome = true ∧ d.l.isSome = true
    · obtain ⟨fid, hl⟩ := Option.isSome_iff_exists.mp hfl.2
      cases hst : fs fid with
      | pending =>
        refine .inr (.inl ⟨updateStore fs fid (.finished (worker (popL d))),
          fid, worker (popL d), ?_, hfl.2⟩)
        simp [step, hc, hfl.1, hfl.2, hl, hst, set_running_or_notify_cancel,
          set_result]
      | cancelled =>
        exact .inl ⟨updateStore fs fid .cancelledNotified,
          by simp [step, hc, hfl.1, hfl.2, hl, hst,
            set_running_or_notify_cancel]⟩
      | running =>
        exact .inr (.inr (.inr (.inr ⟨fs, by simp [step, hc, hfl.1, hfl.2,
          hl, hst, set_running_or_notify_cancel]⟩)))
      | cancelledNotified =>
        exact .inr (.inr (.inr (.inr ⟨fs, by simp [step, hc, hfl.1, hfl.2,
          hl, hst, set_running_or_notify_cancel]⟩)))
      | finished v =>
        exact .inr (.inr (.inr (.inr ⟨fs, by simp [step, hc, hfl.1, hfl.2,
          hl, hst, set_running_or_notify_cancel]⟩)))
    · by_cases hfi : d.f.isSome = true ∧ d.i.isSome = true
      · refine .inr (.inr (.inl ?_))
        simp only [step, hc, Bool.false_eq_true, if_false]
        rw [if_neg hfl, if_pos hfi]
      · refine .inl ⟨fs, ?_⟩
        simp only [step, hc, Bool.false_eq_true, if_false]
        rw [if_neg hfl, if_neg hfi]

theorem callsAnswered_nil : callsAnswered [] := by
  intro j p hj
  simp [List.get?] at hj

theorem callsAnswered_cons (e : Event) (t : List Event)
    (he : ∀ p, e ≠ .callSent p) (ht : callsAnswered t) :
    callsAnswered (e :: t) := by
  intro j p hj
  cases j with
  | zero =>
    rw [List.get?_cons_zero] at hj
    exact absurd (Option.some.inj hj) (he p)
  | succ n =>
    rw [List.get?_cons_succ] at hj
    obtain ⟨fid, v, h2⟩ := ht n p hj
    exact ⟨fid, v, by rw [List.get?_cons_succ]; exact h2⟩

theorem callsAnswered_call_cons (p : TaskDict) (fid v : Nat) (t : List Event)
    (ht : callsAnswered t) :
    callsAnswered (.callSent p :: .resultRecorded fid v :: t) := by
  intro j p' hj
  match j with
  | 0 => exact ⟨fid, v, rfl⟩
  | 1 => simp [List.get?] at hj
  | n + 2 =>
    rw [List.get?_cons_succ, List.get?_cons_succ] at hj
    obtain ⟨fid', v', h2⟩ := ht n p' hj
    refine ⟨fid', v', ?_⟩
    rw [List.get?_cons_succ, List.get?_cons_succ]
    exact h2

theorem sublist_queued_cons (l : List TaskDict) (d : TaskDict)
    (rest : List TaskDict) (h : List.Sublist l (queuedTaskPayloads rest)) :
    List.Sublist l (queuedTaskPayloads (d :: rest)) := by
  by_cases hd : d.l.isSome = true
  · simpa [queuedTaskPayloads, List.filterMap_cons, hd] using h.cons (popL d)
  · simpa [queuedTaskPayloads, List.filterMap_cons, hd] using h

/-- C2: the dispatcher loop handles queue items strictly one at a time in
dequeue order: in the event trace of any run, every blocking call is
immediately followed by the recording of its result (no second
`send_and_receive` begins before the previous result is stored), and the
sequence of dispatched payloads is an order-preserving subsequence of the
queued task payloads, so tasks on one slot start in submission (FIFO)
order. -/
theorem execute_tasks_fifo_serial (worker : TaskDict → Nat) (fs : FutStore)
    (q : List TaskDict) :
    callsAnswered (execute_tasks worker fs q).2.1 ∧
    List.Sublist (callsOf (execute_tasks worker fs q).2.1)
      (queuedTaskPayloads q) := by
  induction q generalizing fs with
  | nil =>
    exact ⟨callsAnswered_nil, by simp [execute_tasks, callsOf,
      queuedTaskPayloads]⟩
  | cons d rest ih =>
    rcases step_shape worker fs d with ⟨fs', hs⟩ | ⟨fs', fid, v, hs, hl⟩ |
      hs | ⟨hclose, hs⟩ | ⟨fs', hs⟩
    · rcases hrec : execute_tasks worker fs' rest with ⟨fs2, evs2, e2⟩
      have ih' := ih fs'
      rw [hrec] at ih'
      simp only [execute_tasks, hs, hrec, List.nil_append]
      exact ⟨ih'.1, sublist_queued_cons _ d rest ih'.2⟩
    · rcases hrec : execute_tasks worker fs' rest with ⟨fs2, evs2, e2⟩
      have ih' := ih fs'
      rw [hrec] at ih'
      simp only [execute_tasks, hs, hrec, List.cons_append, List.nil_append]
      refine ⟨callsAnswered_call_cons _ fid v _ ih'.1, ?_⟩
      have hq : queuedTaskPayloads (d :: rest) =
          popL d :: queuedTaskPayloads rest := by
        simp [queuedTaskPayloads, List.filterMap_cons, hl]
      rw [hq]
      have hco : callsOf (Event.callSent (popL d) ::
          Event.resultRecorded fid v :: evs2) = popL d :: callsOf evs2 := by
        simp [callsOf, List.filterMap_cons]
      rw [hco]
      exact ih'.2.cons₂ (popL d)
    · rcases hrec : execute_tasks worker fs rest with ⟨fs2, evs2, e2⟩
      have ih' := ih fs
      rw [hrec] at ih'
      simp only [execute_tasks, hs, hrec, List.cons_append, List.nil_append]
      refine ⟨callsAnswered_cons _ _ (by intro p h; cases h) ih'.1, ?_⟩
      have hco : callsOf (Event.sendFF d :: evs2) = callsOf evs2 := by
        simp [callsOf, List.filterMap_cons]
      rw [hco]
      exact sublist_queued_cons _ d rest ih'.2
    · simp only [execute_tasks, hs]
      refine ⟨callsAnswered_cons _ _ (by intro p h; cases h)
        callsAnswered_nil, ?_⟩
      simp [callsOf]
    · simp only [execute_tasks, hs]
      exact ⟨callsAnswered_nil, by simp [callsOf]⟩

/-- Witness for C2 on a concrete two-item queue (one task, then close). -/
theorem execute_tasks_fifo_serial_witness :
    (∃ fid v, ((execute_tasks (fun _ => 5) (fun _ => FutState.pending)
        [TaskDict.mk none (some 1) none none (some 0) none,
         TaskDict.mk (some "close") none none none none none]).2.1).get? 1 =
      some (.resultRecorded fid v)) ∧
    List.Sublist
      (callsOf (execute_tasks (fun _ => 5) (fun _ => FutState.pending)
        [TaskDict.mk none (some 1) none none (some 0) none,
         TaskDict.mk (some "close") none none none none none]).2.1)
      (queuedTaskPayloads
        [TaskDict.mk none (some 1) none none (some 0) none,
         TaskDict.mk (some "close") none none none none none]) :=
  ⟨(execute_tasks_fifo_serial (fun _ => 5) (fun _ => FutState.pending)
      [TaskDict.mk none (some 1) none none (some 0) none,
       TaskDict.mk (some "close") none none none none none]).1 0
    (popL (TaskDict.mk none (some 1) none none (some 0) none)) (by decide),
   (execute_tasks_fifo_serial (fun _ => 5) (fun _ => FutState.pending)
      [TaskDict.mk none (some 1) none none (some 0) none,
       TaskDict.mk (some "close") none none none none none]).2⟩

theorem exit_closed_has_close (worker : TaskDict → Nat) :
    ∀ (q : List TaskDict) (fs : FutStore),
      (execute_tasks worker fs q).2.2 = .closed →
      ∃ d ∈ q, isClose d = true := by
  intro q
  induction q with
  | nil => intro fs h; simp [execute_tasks] at h
  | cons d rest ih =>
    intro fs h
    rcases step_shape worker fs d with ⟨fs', hs⟩ | ⟨fs', fid, v, hs, _⟩ |
      hs | ⟨hclose, _⟩ | ⟨fs', hs⟩
    · rcases hrec : execute_tasks worker fs' rest with ⟨fs2, evs2, e2⟩
      simp only [execute_tasks, hs, hrec] at h
      obtain ⟨d', hmem, hc⟩ := ih fs' (by rw [hrec]; exact h)
      exact ⟨d', List.mem_cons_of_mem d hmem, hc⟩
    · rcases hrec : execute_tasks worker fs' rest with ⟨fs2, evs2, e2⟩
      simp only [execute_tasks, hs, hrec] at h
      obtain ⟨d', hmem, hc⟩ := ih fs' (by rw [hrec]; exact h)
      exact ⟨d', List.mem_cons_of_mem d hmem, hc⟩
    · rcases hrec : execute_tasks worker fs rest with ⟨fs2, evs2, e2⟩
      simp only [execute_tasks, hs, hrec] at h
      obtain ⟨d', hmem, hc⟩ := ih fs (by rw [hrec]; exact h)
      exact ⟨d', List.mem_cons_of_mem d hmem, hc⟩
    · exact ⟨d, List.mem_cons_self d rest, hclose⟩
    · simp only [execute_tasks, hs] at h
      cases h

/-- C3: the dispatcher loop runs until it dequeues a close control message
(a dict whose `"c"` key maps to `"close"`): on dequeuing it, the loop shuts
down the socket interface with `wait=True` and terminates with the
remaining queue items unprocessed (the result does not depend on `rest`);
conversely a run only ends in the `closed` state if some dequeued item was
such a close message. -/
theorem execute_tasks_runs_until_close (worker : TaskDict → Nat)
    (fs : FutStore) :
    (∀ d rest, isClose d = true →
      execute_tasks worker fs (d :: rest) =
        (fs, [Event.shutdownEv true], LoopExit.closed)) ∧
    (∀ q, (execute_tasks worker fs q).2.2 = .closed →
      ∃ d ∈ q, isClose d = true) := by
  constructor
  · intro d rest h
    simp [execute_tasks, step, h]
  · intro q h
    exact exit_closed_has_close worker q fs h

/-- Witness for C3: a concrete close message followed by a task item that
is never processed. -/
theorem execute_tasks_runs_until_close_witness :
    execute_tasks (fun _ => 9) (fun _ => FutState.pending)
        [TaskDict.mk (some "close") none none none none none,
         TaskDict.mk none (some 1) none none (some 0) none] =
      ((fun _ => FutState.pending), [Event.shutdownEv true],
        LoopExit.closed) ∧
    ∃ d ∈ [TaskDict.mk (some "close") none none none none none,
           TaskDict.mk none (some 1) none none (some 0) none],
      isClose d = true := by
  have h := execute_tasks_runs_until_close (fun _ => 9)
    (fun _ => FutState.pending)
  refine ⟨h.1 (TaskDict.mk (some "close") none none none none none)
    [TaskDict.mk none (some 1) none none (some 0) none] (by decide), ?_⟩
  exact h.2 _ (by decide)

theorem sweep_snd_nil (q : List QItem) :
    ∀ fs : FutStore, (cancel_items_in_queue fs q).2 = [] := by
  induction q with
  | nil => intro fs; rfl
  | cons item rest ih =>
    intro fs
    cases item with
    | other n => exact ih fs
    | dict d =>
      cases hl : d.l with
      | none => simp only [cancel_items_in_queue, hl]; exact ih fs
      | some fid => simp only [cancel_items_in_queue, hl]; exact ih _

theorem sweep_preserves_fixed (q : List QItem) :
    ∀ (fs : FutStore) (fid : Nat), (futureCancel (fs fid)).2 = fs fid →
      (cancel_items_in_queue fs q).1 fid = fs fid := by
  induction q with
  | nil => intro fs fid _; rfl
  | cons item rest ih =>
    intro fs fid h
    cases item with
    | other n => exact ih fs fid h
    | dict d =>
      cases hl : d.l with
      | none => simp only [cancel_items_in_queue, hl]; exact ih fs fid h
      | some fid' =>
        simp only [cancel_items_in_queue, hl]
        have hfix : updateStore fs fid' (futureCancel (fs fid')).2 fid =
            fs fid := by
          unfold updateStore
          by_cases he : fid = fid'
          · subst he; simp [h]
          · simp [he]
        have h2 : (futureCancel
            (updateStore fs fid' (futureCancel (fs fid')).2 fid)).2 =
            updateStore fs fid' (futureCancel (fs fid')).2 fid := by
          rw [hfix, h]
        exact (ih _ fid h2).trans hfix

theorem sweep_unreferenced (q : List QItem) :
    ∀ (fs : FutStore) (fid : Nat), referencesFid q fid = false →
      (cancel_items_in_queue fs q).1 fid = fs fid := by
  induction q with
  | nil => intro fs fid _; rfl
  | cons item rest ih =>
    intro fs fid h
    cases item with
    | other n =>
      have h2 : referencesFid rest fid = false := by
        simpa [referencesFid, List.any_cons] using h
      exact ih fs fid h2
    | dict d =>
      have hparts : ¬(d.l = some fid) ∧ referencesFid rest fid = false := by
        simpa [referencesFid, List.any_cons] using h
      cases hl : d.l with
      | none =>
        simp only [cancel_items_in_queue, hl]
        exact ih fs fid hparts.2
      | some fid' =>
        have hne : fid' ≠ fid := fun he => hparts.1 (by rw [hl, he])
        simp only [cancel_items_in_queue, hl]
        have hfix : updateStore fs fid' (futureCancel (fs fid')).2 fid =
            fs fid := by
          simp only [updateStore]
          rw [if_neg (Ne.symm hne)]
        exact (ih _ fid hparts.2).trans hfix

theorem sweep_pending_referenced (q : List QItem) :
    ∀ (fs : FutStore) (fid : Nat), fs fid = .pending →
      referencesFid q fid = true →
      (cancel_items_in_queue fs q).1 fid = .cancelled := by
  induction q with
  | nil => intro fs fid _ h; simp [referencesFid] at h
  | cons item rest ih =>
    intro fs fid hp href
    cases item with
    | other n =>
      have hrest : referencesFid rest fid = true := by
        simpa [referencesFid, List.any_cons] using href
      exact ih fs fid hp hrest
    | dict d =>
      cases hl : d.l with
      | none =>
        have hrest : referencesFid rest fid = true := by
          simpa [referencesFid, List.any_cons, hl] using href
        simp only [cancel_items_in_queue, hl]
        exact ih fs fid hp hrest
      | some fid' =>
        simp only [cancel_items_in_queue, hl]
        by_cases he : fid' = fid
        · subst he
          rw [hp]
          have hcan : updateStore fs fid' (futureCancel FutState.pending).2
              fid' = FutState.cancelled := by
            simp [updateStore, futureCancel]
          have := sweep_preserves_fixed rest
            (updateStore fs fid' (futureCancel FutState.pending).2) fid'
            (by rw [hcan]; rfl)
          rw [this, hcan]
        · have hrest : referencesFid rest fid = true := by
            have hno : ¬(d.l = some fid) := by rw [hl]; simp [he]
            simpa [referencesFid, List.any_cons, hno] using href
          have hfix : updateStore fs fid' (futureCancel (fs fid')).2 fid =
              fs fid := by
            simp only [updateStore]
            rw [if_neg (Ne.symm he)]
          exact ih _ fid (hfix.trans hp) hrest

/-- C4: the cancellation sweep drains every not-yet-dispatched entry from
the queue (the queue it leaves behind is empty) and, for each drained dict
entry paired with a future under `"l"` that is still pending, marks that
future cancelled; it interacts with no worker (the sweep produces no
interface events by construction).  Futures of entries already handed to
`send_and_receive` are not in the queue any more and are RUNNING or
FINISHED, and the sweep leaves every running or finished future — and
every future not referenced from the queue — untouched. -/
theorem cancel_items_in_queue_spec (fs : FutStore) (q : List QItem) :
    (cancel_items_in_queue fs q).2 = [] ∧
    (∀ fid, fs fid = .pending → referencesFid q fid = true →
      (cancel_items_in_queue fs q).1 fid = .cancelled) ∧
    (∀ fid, referencesFid q fid = false →
      (cancel_items_in_queue fs q).1 fid = fs fid) ∧
    (∀ fid, fs fid = .running →
      (cancel_items_in_queue fs q).1 fid = .running) ∧
    (∀ fid v, fs fid = .finished v →
      (cancel_items_in_queue fs q).1 fid = .finished v) := by
  refine ⟨sweep_snd_nil q fs, ?_, ?_, ?_, ?_⟩
  · intro fid hp href
    exact sweep_pending_referenced q fs fid hp href
  · intro fid h
    exact sweep_unreferenced q fs fid h
  · intro fid h
    have := sweep_preserves_fixed q fs fid (by rw [h]; rfl)
    rw [this, h]
  · intro fid v h
    have := sweep_preserves_fixed q fs fid (by rw [h]; rfl)
    rw [this, h]

/-- Witness for C4: a queue with one cancellable task entry (future 0,
pending) and one non-dict item, against a store whose future 1 is
running. -/
theorem cancel_items_in_queue_spec_witness :
    (cancel_items_in_queue
      (fun n => if n = 0 then FutState.pending else FutState.running)
      [QItem.dict (TaskDict.mk none (some 1) none none (some 0) none),
       QItem.other 3]).2 = [] ∧
    (cancel_items_in_queue
      (fun n => if n = 0 then FutState.pending else FutState.running)
      [QItem.dict (TaskDict.mk none (some 1) none none (some 0) none),
       QItem.other 3]).1 0 = FutState.cancelled ∧
    (cancel_items_in_queue
      (fun n => if n = 0 then FutState.pending else FutState.running)
      [QItem.dict (TaskDict.mk none (some 1) none none (some 0) none),
       QItem.other 3]).1 1 = FutState.running := by
  have h := cancel_items_in_queue_spec
    (fun n => if n = 0 then FutState.pending else FutState.running)
    [QItem.dict (TaskDict.mk none (some 1) none none (some 0) none),
     QItem.other 3]
  exact ⟨h.1, h.2.1 0 (by decide) (by decide), h.2.2.2.1 1 (by decide)⟩

/-- C8: the cancellation sweep removes every item from the queue, not only
cancellable task entries: an item that is not a dict with an `"l"` key —
a close control message, a poll-list dict, or a non-dict — is silently
discarded (the sweep's result is as if the item had not been there), and
after the sweep nothing at all is left on the queue, so a close message
enqueued before a sweep never reaches the dispatcher loop. -/
theorem cancel_items_in_queue_drains_all (fs : FutStore) :
    (∀ q, (cancel_items_in_queue fs q).2 = []) ∧
    (∀ item rest, hasLKey item = false →
      cancel_items_in_queue fs (item :: rest) =
        cancel_items_in_queue fs rest) ∧
    (∀ q d, isClose d = true →
      QItem.dict d ∉ (cancel_items_in_queue fs q).2) := by
  refine ⟨fun q => sweep_snd_nil q fs, ?_, ?_⟩
  · intro item rest h
    cases item with
    | other n => rfl
    | dict d =>
      have hl : d.l = none := by
        cases hx : d.l with
        | none => rfl
        | some fid => rw [hasLKey, hx] at h; cases h
      simp only [cancel_items_in_queue, hl]
  · intro q d _
    rw [sweep_snd_nil q fs]
    simp

/-- Witness for C8: sweeping a queue holding only a close control message
discards it and leaves the queue empty. -/
theorem cancel_items_in_queue_drains_all_witness :
    (cancel_items_in_queue (fun _ => FutState.pending)
      [QItem.dict (TaskDict.mk (some "close") none none none none none)]).2 =
      [] ∧
    cancel_items_in_queue (fun _ => FutState.pending)
      [QItem.dict (TaskDict.mk (some "close") none none none none none)] =
      cancel_items_in_queue (fun _ => FutState.pending) [] ∧
    QItem.dict (TaskDict.mk (some "close") none none none none none) ∉
      (cancel_items_in_queue (fun _ => FutState.pending)
        [QItem.dict (TaskDict.mk (some "close") none none none none
          none)]).2 := by
  have h := cancel_items_in_queue_drains_all (fun _ => FutState.pending)
  exact ⟨h.1 _, h.2.1 _ [] (by decide), h.2.2 _ _ (by decide)⟩

/-- C6: `Executor.__new__` raises a `ValueError` synchronously for an
`init_function` supplied together with step allocation
(`block_allocation=False`) and for a backend string outside
`{"auto", "mpi", "slurm", "flux"}`; since the factory returns an error
instead of reaching any executor constructor, no worker process is spawned
in those cases. -/
theorem executorNew_invalid_options_error
    (flux_installed slurm_installed : Bool)
    (max_cores cores_per_worker threads_per_core gpus_per_worker : Nat)
    (oversubscribe : Bool) (cwd : Option String) (hostname_localhost : Bool)
    (backend : String) (block_allocation : Bool) (init_function : Option Nat)
    (h : (block_allocation = false ∧ init_function ≠ none) ∨
      backend ∉ validBackends) :
    ∃ e, executorNew flux_installed slurm_installed max_cores
      cores_per_worker threads_per_core gpus_per_worker oversubscribe cwd
      hostname_localhost backend block_allocation init_function =
      .error e := by
  by_cases h1 : block_allocation = false ∧ init_function ≠ none
  · refine ⟨.initWithStepMode, ?_⟩
    unfold executorNew
    rw [if_pos h1]
  · refine ⟨.invalidBackend backend, ?_⟩
    unfold executorNew
    rw [if_neg h1, if_pos (h.resolve_left h1)]

/-- Witness for C6: a step-mode `init_function` and an unsupported backend
string each produce a synchronous configuration error. -/
theorem executorNew_invalid_options_error_witness :
    (∃ e, executorNew false false 1 1 1 0 false none false "mpi" false
      (some 4) = .error e) ∧
    (∃ e, executorNew false false 1 1 1 0 false none false "dask" true
      none = .error e) :=
  ⟨executorNew_invalid_options_error false false 1 1 1 0 false none false
    "mpi" false (some 4) (.inl ⟨rfl, by simp⟩),
   executorNew_invalid_options_error false false 1 1 1 0 false none false
    "dask" true none (.inr (by decide))⟩

theorem hasAdjacent_here (x y : String) (l : List String) :
    hasAdjacent x y (x :: y :: l) = true := by
  show ((x == x && y == y) || hasAdjacent x y (y :: l)) = true
  simp

theorem hasAdjacent_cons (x y a : String) (l : List String)
    (h : hasAdjacent x y l = true) : hasAdjacent x y (a :: l) = true := by
  match l with
  | [] => exact absurd h (by simp [hasAdjacent])
  | [z] => exact absurd h (by simp [hasAdjacent])
  | z :: w :: r =>
    show ((a == x && z == y) || hasAdjacent x y (z :: w :: r)) = true
    rw [h, Bool.or_true]

theorem hasAdjacent_append_right (x y : String) (l₁ l₂ : List String)
    (h : hasAdjacent x y l₂ = true) : hasAdjacent x y (l₁ ++ l₂) = true := by
  induction l₁ with
  | nil => simpa using h
  | cons a t ih =>
    rw [List.cons_append]
    exact hasAdjacent_cons x y a (t ++ l₂) ih

/-- The function `command_line_options` written as one concatenation of its conditional
segments, in the order the source appends them. -/
theorem command_line_options_eq (hostname : String) (port : Nat)
    (path : String) (cores cpt : Nat) (over flux mpi : Bool) :
    command_line_options hostname port path cores cpt over flux mpi =
      (if flux then ["flux", "run"] else ["mpiexec"]) ++
      (if over then ["--oversubscribe"] else []) ++
      (if cpt = 1 ∧ mpi then
        ["-n", Nat.repr cores, "python", "-m", "mpi4py.futures"]
       else if cpt > 1 ∧ mpi then ["-n", "1", "python"]
       else ["-n", Nat.repr cores, "python"]) ++
      [path] ++
      (if flux then ["--host", hostname] else []) ++
      ["--zmqport", Nat.repr port] ++
      (if mpi then
        ["--cores-per-task", Nat.repr cpt, "--cores-total", Nat.repr cores]
       else []) := by
  by_cases hc1 : cpt = 1 <;> by_cases hc2 : cpt > 1 <;>
    rcases over <;> rcases flux <;> rcases mpi <;>
      simp [command_line_options, hc1, hc2]

/-- C10: the generated worker launch command always contains `--zmqport`
immediately followed by the decimal port; it contains `--oversubscribe`
iff oversubscribe is set, `--host` (immediately followed by the hostname)
iff the flux backend is enabled, and `--cores-per-task` / `--cores-total`
iff the mpi4py backend is enabled; and with the mpi4py backend and
`cores_per_task > 1` it requests exactly one rank (`-n` immediately
followed by `1`).  The freshness hypotheses record that the hostname, the
script path and the rendered numbers are not themselves option tokens,
which holds of everything the launch pipeline actually produces. -/
theorem command_line_options_flags
    (hostname path : String) (port cores cpt : Nat) (over flux mpi : Bool)
    (hh : freshToken hostname) (hp : freshToken path)
    (hq1 : freshToken (Nat.repr port)) (hq2 : freshToken (Nat.repr cores))
    (hq3 : freshToken (Nat.repr cpt))
    (cmd : List String)
    (hcmd : cmd = command_line_options hostname port path cores cpt over
      flux mpi) :
    hasAdjacent "--zmqport" (Nat.repr port) cmd = true ∧
    ("--oversubscribe" ∈ cmd ↔ over = true) ∧
    ("--host" ∈ cmd ↔ flux = true) ∧
    (flux = true → hasAdjacent "--host" hostname cmd = true) ∧
    ("--cores-per-task" ∈ cmd ↔ mpi = true) ∧
    ("--cores-total" ∈ cmd ↔ mpi = true) ∧
    (mpi = true → hasAdjacent "--cores-per-task" (Nat.repr cpt) cmd = true ∧
      hasAdjacent "--cores-total" (Nat.repr cores) cmd = true) ∧
    (mpi = true → cpt > 1 → hasAdjacent "-n" "1" cmd = true) := by
  subst hcmd
  simp only [freshToken, flagTokens, List.forall_mem_cons,
    List.forall_mem_nil, and_true] at hh hp hq1 hq2 hq3
  obtain ⟨hh1, hh2, hh3, hh4, hh5⟩ := hh
  obtain ⟨hp1, hp2, hp3, hp4, hp5⟩ := hp
  obtain ⟨ha1, ha2, ha3, ha4, ha5⟩ := hq1
  obtain ⟨hb1, hb2, hb3, hb4, hb5⟩ := hq2
  obtain ⟨hc1, hc2, hc3, hc4, hc5⟩ := hq3
  rw [command_line_options_eq]
  rcases over <;> rcases flux <;> rcases mpi <;> rcases cpt with _ | _ | n <;>
    simp_all [hasAdjacent, Nat.succ_lt_succ_iff]

/-- Witness for C10 at a concrete flux + mpi4py configuration. -/
theorem command_line_options_flags_witness :
    hasAdjacent "--zmqport" (Nat.repr 8080)
      (command_line_options "node0" 8080 "/tmp/mpipool.py" 4 2 true true
        true) = true ∧
    ("--oversubscribe" ∈ command_line_options "node0" 8080 "/tmp/mpipool.py"
      4 2 true true true ↔ True) ∧
    ("--host" ∈ command_line_options "node0" 8080 "/tmp/mpipool.py" 4 2 true
      true true ↔ True) ∧
    hasAdjacent "-n" "1" (command_line_options "node0" 8080
      "/tmp/mpipool.py" 4 2 true true true) = true := by
  have h := command_line_options_flags "node0" "/tmp/mpipool.py" 8080 4 2
    true true true (by unfold freshToken; decide)
    (by unfold freshToken; decide) (by unfold freshToken; decide)
    (by unfold freshToken; decide) (by unfold freshToken; decide) _ rfl
  exact ⟨h.1, by simpa using h.2.1, by simpa using h.2.2.1,
    h.2.2.2.2.2.2.2 rfl (by decide)⟩

end Pympipool
